import Mathlib

/-!
Verification development for the translation-structure synchronization
scripts `sync_translations.py` (report mode) and `sync_fix.py` (fix mode).

A Python line (a string without `'\n'` in the middle) is modelled as a
`List Char`.  The regular expressions used by the scripts are translated
into executable functions whose semantics (including the greedy
backtracking behaviour of `\s+(.+)$`) follow the Python `re` module on
the concrete patterns appearing in the code.  `\s` and `\d` are modelled
by their ASCII parts (the documents involved are ASCII-structured
markdown; the scripts never rely on non-ASCII whitespace or digits).
-/

namespace Sync

/-- Character class of the Python regex `\s` (ASCII part). -/
def isPySpace (c : Char) : Bool :=
  c == ' ' || c == '\t' || c == '\n' || c == '\r' || c == '\x0b' || c == '\x0c'

/-- Python `str.strip()`: remove leading and trailing whitespace. -/
def pyStrip (s : List Char) : List Char :=
  ((s.dropWhile isPySpace).reverse.dropWhile isPySpace).reverse

/-- Python `str.startswith(pre)`. -/
def startsWithL (pre s : List Char) : Bool :=
  s.take pre.length == pre

/-- Semantics of the regex fragment `\s+(.+)$`, applied to the part of a
line that follows a marker: returns the text captured by `(.+)`.  The
greedy `\s+` takes the maximal whitespace run; if nothing is left for
`(.+)` the engine backtracks one whitespace character which then becomes
the text. -/
def matchSpacePlusText (s : List Char) : Option (List Char) :=
  let w := (s.takeWhile isPySpace).length
  if w = 0 then none
  else if w < s.length then some (s.drop w)
  else if 2 ≤ w then some (s.drop (w - 1))
  else none

/-- Regex `^(#{1,6})\s+(.+)$` from both scripts: heading level and text.
With seven or more leading `#` characters no split of the line satisfies
the pattern, because the character following the group is again `#`. -/
def matchHeading (line : List Char) : Option (Nat × List Char) :=
  let h := (line.takeWhile (· == '#')).length
  if 1 ≤ h ∧ h ≤ 6 then
    (matchSpacePlusText (line.drop h)).map (fun t => (h, t))
  else none

/-- Regex `^(\s*)(\d+)\.\s+(.+)$`: indent width, number token, text. -/
def matchNumbered (line : List Char) : Option (Nat × List Char × List Char) :=
  let ws := (line.takeWhile isPySpace).length
  let r1 := line.drop ws
  let num := r1.takeWhile Char.isDigit
  if num.isEmpty then none
  else
    match r1.drop num.length with
    | '.' :: rest => (matchSpacePlusText rest).map (fun t => (ws, num, t))
    | _ => none

/-- The three bullet glyphs of the regex class `[\*\-\+]`. -/
def bulletChars : List Char := ['*', '-', '+']

/-- Regex `^(\s*)([\*\-\+])\s+(.+)$`: indent width, bullet glyph, text. -/
def matchBullet (line : List Char) : Option (Nat × Char × List Char) :=
  let ws := (line.takeWhile isPySpace).length
  match line.drop ws with
  | b :: rest =>
    if b ∈ bulletChars then (matchSpacePlusText rest).map (fun t => (ws, b, t))
    else none
  | [] => none

/-- The rule glyphs of the regex class `[\*\-_]`. -/
def hrChars : List Char := ['*', '-', '_']

/-- Regex `^[\*\-_]{3,}$` applied to `line.strip()` (horizontal rule). -/
def isHrLine (line : List Char) : Bool :=
  let s := pyStrip line
  decide (3 ≤ s.length) && s.all (fun c => hrChars.contains c)

/-- The code-fence marker `line.strip().startswith('```')` tests for. -/
def fenceMarker : List Char := "```".data

/-- Test used by `analyze_structure` to recognise a fence delimiter line. -/
def isFenceLine (line : List Char) : Bool :=
  startsWithL fenceMarker (pyStrip line)

/-- Token tested by `line.strip().startswith('import ')`. -/
def importMarker : List Char := "import ".data

/-- Import-directive test of `analyze_structure`. -/
def isImportLine (line : List Char) : Bool :=
  startsWithL importMarker (pyStrip line)

/-! ### The fix-mode parser `parse_line` (sync_fix.py, lines 107-141) -/

/-- Result dictionary of `parse_line`; each constructor carries exactly the
keys the Python dict has for that `type` value (the bullet glyph, a
one-character string in Python, is a `Char` here). -/
inductive PRec where
  | heading (level : Nat) (text : List Char) (original : List Char)
  | numbered_list (indent : Nat) (number : List Char) (text : List Char) (original : List Char)
  | bullet_list (indent : Nat) (bullet : Char) (text : List Char) (original : List Char)
  | other (original : List Char)
deriving DecidableEq, Repr

/-- The `'original'` key, present in every record. -/
def PRec.original : PRec → List Char
  | .heading _ _ o => o
  | .numbered_list _ _ _ o => o
  | .bullet_list _ _ _ o => o
  | .other o => o

/-- The four values the `'type'` key can take in `parse_line` records. -/
inductive PTy where
  | heading | numbered_list | bullet_list | other
deriving DecidableEq, Repr

/-- The `'type'` key of a `parse_line` record. -/
def PRec.ty : PRec → PTy
  | .heading .. => .heading
  | .numbered_list .. => .numbered_list
  | .bullet_list .. => .bullet_list
  | .other .. => .other

/-- `parse_line` from sync_fix.py: heading, then numbered list, then
bullet list, then `other`.  No code-fence, import or rule handling. -/
def parse_line (line : List Char) : PRec :=
  match matchHeading line with
  | some (lv, t) => PRec.heading lv t line
  | none =>
    match matchNumbered line with
    | some (ind, num, t) => PRec.numbered_list ind num t line
    | none =>
      match matchBullet line with
      | some (ind, b, t) => PRec.bullet_list ind b t line
      | none => PRec.other line

/-! ### The report-mode parser `analyze_structure` (sync_translations.py,
lines 113-221) -/

/-- Result dictionary of `analyze_structure` for one line; `imp` models
the Python type value `'import'` (a Lean keyword). -/
inductive SRec where
  | code_block_start (line : Nat) (content : List Char) (lang : List Char)
  | code_block_end (line : Nat) (content : List Char)
  | code_block_content (line : Nat) (content : List Char)
  | heading (line : Nat) (level : Nat) (text : List Char) (content : List Char)
  | numbered_list (line : Nat) (indent : Nat) (number : List Char) (text : List Char) (content : List Char)
  | bullet_list (line : Nat) (indent : Nat) (bullet : Char) (text : List Char) (content : List Char)
  | imp (line : Nat) (content : List Char)
  | hr (line : Nat) (content : List Char)
  | text (line : Nat) (content : List Char)
deriving DecidableEq, Repr

/-- The `'content'` key, present in every `analyze_structure` record. -/
def SRec.content : SRec → List Char
  | .code_block_start _ c _ => c
  | .code_block_end _ c => c
  | .code_block_content _ c => c
  | .heading _ _ _ c => c
  | .numbered_list _ _ _ _ c => c
  | .bullet_list _ _ _ _ c => c
  | .imp _ c => c
  | .hr _ c => c
  | .text _ c => c

/-- One iteration of the `analyze_structure` loop body: classify `line`
at index `i` given the `in_code_block` flag, returning the record and the
updated flag. -/
def analyzeLine (inCode : Bool) (i : Nat) (line : List Char) : SRec × Bool :=
  if isFenceLine line then
    if !inCode then
      (SRec.code_block_start i line (pyStrip ((pyStrip line).drop 3)), true)
    else
      (SRec.code_block_end i line, false)
  else if inCode then
    (SRec.code_block_content i line, true)
  else
    match matchHeading line with
    | some (lv, t) => (SRec.heading i lv t line, false)
    | none =>
      match matchNumbered line with
      | some (ind, num, t) => (SRec.numbered_list i ind num t line, false)
      | none =>
        match matchBullet line with
        | some (ind, b, t) => (SRec.bullet_list i ind b t line, false)
        | none =>
          if isImportLine line then (SRec.imp i line, false)
          else if isHrLine line then (SRec.hr i line, false)
          else (SRec.text i line, false)

/-- The `for i, line in enumerate(lines)` loop of `analyze_structure`,
threading the `in_code_block` flag and the line index. -/
def analyzeFrom (inCode : Bool) (i : Nat) : List (List Char) → List SRec
  | [] => []
  | l :: ls =>
    let r := analyzeLine inCode i l
    r.1 :: analyzeFrom r.2 (i + 1) ls

/-- `analyze_structure` applied to an already-split body (the Python
function receives the body string and starts with `content.split('\n')`;
callers below perform that split). -/
def analyze_structure (lines : List (List Char)) : List SRec :=
  analyzeFrom false 0 lines

/-! ### Line splitting and front matter -/

/-- Python `content.split('\n')`; never returns the empty list. -/
def splitNL : List Char → List (List Char)
  | [] => [[]]
  | c :: cs =>
    if c = '\n' then [] :: splitNL cs
    else
      match splitNL cs with
      | [] => [[c]]
      | l :: ls => (c :: l) :: ls

/-- Python `'\n'.join(lines)`. -/
def joinNL (ls : List (List Char)) : List Char :=
  (ls.intersperse ['\n']).flatten

/-- The front-matter delimiter `'---'`. -/
def fmDelim : List Char := "---".data

/-- The scan over `lines[1:]` in `extract_frontmatter`: `some (fmTail,
bodyLines)` if a closing delimiter is found (`fmTail` are the collected
front-matter lines including the literal closing `'---'`, `bodyLines`
the lines after it); `none` if the loop runs out without a break. -/
def fmScan : List (List Char) → Option (List (List Char) × List (List Char))
  | [] => none
  | l :: rest =>
    if pyStrip l = fmDelim then some ([fmDelim], rest)
    else (fmScan rest).map (fun p => (l :: p.1, p.2))

/-- `extract_frontmatter` (identical in both scripts).  When no closing
delimiter exists, `body_start` keeps its initial value `1`, so the body
is everything after the first line while the front matter also collected
all of those lines. -/
def extract_frontmatter (content : List Char) : List Char × List Char :=
  match splitNL content with
  | [] => ([], content)
  | l0 :: rest =>
    if pyStrip l0 = fmDelim then
      match fmScan rest with
      | some (fmTail, bodyLines) => (joinNL (fmDelim :: fmTail), joinNL bodyLines)
      | none => (joinNL (fmDelim :: rest), joinNL rest)
    else
      ([], content)

/-! ### The fix-mode alignment loop (sync_fix.py, `sync_file`, lines 174-227) -/

/-- Python `' ' * indent`. -/
def mkIndent (n : Nat) : List Char := List.replicate n ' '

/-- Replacement line `'#' * id_level + ' ' + en_text` (sync_fix.py line 182). -/
def mkHeadingLine (level : Nat) (entext : List Char) : List Char :=
  List.replicate level '#' ++ ' ' :: entext

/-- Replacement line `f"{indent_str}{number}. {text}"` (sync_fix.py line 196). -/
def mkNumberedLine (indent : Nat) (number entext : List Char) : List Char :=
  mkIndent indent ++ (number ++ '.' :: ' ' :: entext)

/-- Replacement line `f"{indent_str}{bullet} {text}"` (sync_fix.py line 209). -/
def mkBulletLine (indent : Nat) (bullet : Char) (entext : List Char) : List Char :=
  mkIndent indent ++ bullet :: ' ' :: entext

/-- Guard of the three `elif` matched-pair branches of the loop: both
records have the same type and that type is heading, numbered list or
bullet list. -/
def isMatchedPair (i e : PRec) : Bool :=
  match i, e with
  | .heading _ _ _, .heading _ _ _ => true
  | .numbered_list _ _ _ _, .numbered_list _ _ _ _ => true
  | .bullet_list _ _ _ _, .bullet_list _ _ _ _ => true
  | _, _ => false

/-- Body of a matched-pair branch: the line appended for the pair and
whether `changes_made` is set by this step. -/
def fixLine (i e : PRec) : List Char × Bool :=
  match i, e with
  | .heading il _ _, .heading el et eo =>
    if il ≠ el then (mkHeadingLine il et, true) else (eo, false)
  | .numbered_list ii _ _ _, .numbered_list ei enum etx eo =>
    if ii ≠ ei then (mkNumberedLine ii enum etx, true) else (eo, false)
  | .bullet_list ii _ _ _, .bullet_list ei eb etx eo =>
    if ii ≠ ei then (mkBulletLine ii eb etx, true) else (eo, false)
  | _, e => (e.original, false)

/-- The dual-cursor `while` loop of `sync_file` followed by the trailing
copy loop, on the two parsed record lists.  Returns `new_en_lines` and
the `changes_made` flag.  A matched pair advances both cursors; any
other pair copies the target record through, advances the target cursor,
and advances the source cursor exactly when the two types are equal. -/
def syncLoop : List PRec → List PRec → List (List Char) × Bool
  | _, [] => ([], false)
  | [], e :: es => ((e :: es).map PRec.original, false)
  | i :: is, e :: es =>
    if isMatchedPair i e then
      let fl := fixLine i e
      let r := syncLoop is es
      (fl.1 :: r.1, fl.2 || r.2)
    else
      let r := syncLoop (if i.ty = e.ty then is else i :: is) es
      (e.original :: r.1, r.2)

/-- The matched pairs the dual-cursor traversal visits, collected in
order, using exactly the cursor-advance discipline of `syncLoop`. -/
def matchedPairs : List PRec → List PRec → List (PRec × PRec)
  | _, [] => []
  | [], _ :: _ => []
  | i :: is, e :: es =>
    if isMatchedPair i e then (i, e) :: matchedPairs is es
    else matchedPairs (if i.ty = e.ty then is else i :: is) es

/-- A matched pair is in agreement when the compared quantity (heading
level, or list indent) coincides; pairs of other shapes are vacuously in
agreement. -/
def agree : PRec → PRec → Bool
  | .heading il _ _, .heading el _ _ => il == el
  | .numbered_list ii _ _ _, .numbered_list ei _ _ _ => ii == ei
  | .bullet_list ii _ _ _, .bullet_list ei _ _ _ => ii == ei
  | _, _ => true

/-- The heading pairs with differing levels that the fix-mode traversal
identifies (the pairs it logs `[FIX] Heading level: ...` for), as
(source level, target level). -/
def fixHeadingMismatches (idP enP : List PRec) : List (Nat × Nat) :=
  (matchedPairs idP enP).filterMap (fun p =>
    match p with
    | (.heading il _ _, .heading el _ _) => if il ≠ el then some (il, el) else none
    | _ => none)

/-! ### Path mapper `get_en_path` (sync_fix.py lines 68-83; the version
in sync_translations.py is identical apart from its table lacking the
final `ubah-password` entry) -/

/-- The `PATH_MAPPING` table of sync_fix.py. -/
def PATH_MAPPING : List (List Char × List Char) :=
  [("menu-siswa", "student-menu"),
   ("menu-wali", "guardian-menu"),
   ("penyelesaian-masalah", "troubleshooting"),
   ("pengenalan", "introduction"),
   ("kebijakan-dan-keamanan", "policies-and-security"),
   ("panduan-pengguna-baru", "new-user-guide"),
   ("pengaturan-personal", "personal-settings"),
   ("ujian", "exams"),
   ("tugas", "assignments"),
   ("nilai-ujian", "exam-results"),
   ("biaya", "fees"),
   ("laporan", "reports"),
   ("ujian-online", "online-exams"),
   ("ujian-offline", "offline-exams"),
   ("ditugaskan", "assigned"),
   ("dikumpulkan", "submitted"),
   ("penugasan", "assigned"),
   ("pengumpulan-tugas", "submission"),
   ("tagihan", "bill-list"),
   ("riwayat", "payment-history"),
   ("ujian-daring", "online-exams"),
   ("kehadiran-siswa", "student-attendance"),
   ("kehadiran-anak", "child-attendance"),
   ("jadwal-pelajaran-harian", "daily-class-schedule"),
   ("jadwal-pelajaran-anak", "child-class-schedule"),
   ("absen-mapel", "subject-attendance"),
   ("ekstrakurikuler", "extracurricular"),
   ("galeri", "gallery"),
   ("hari-libur", "holidays"),
   ("pengumuman", "announcements"),
   ("profile-siswa", "student-profile"),
   ("detail-wali", "guardian-details"),
   ("guru", "teachers"),
   ("mengajukan-izin-kehadiran", "submit-attendance-permit"),
   ("pengerjaan-ujian-online", "taking-online-exams"),
   ("hubungi-kami", "contact-us"),
   ("keamanan", "security"),
   ("kebijakan-privasi", "privacy-policy"),
   ("syarat-dan-ketentuan-layanan", "terms-of-service"),
   ("tentang-kami", "about-us"),
   ("lupa-password", "forgot-password"),
   ("masalah-user-tidak-bisa-login", "user-cannot-login"),
   ("tampilan-eschool-mobile", "eschool-mobile-interface"),
   ("gambaran-umum", "overview"),
   ("login", "login"),
   ("ubah-password", "change-password")].map (fun p => (p.1.data, p.2.data))

/-- Dictionary membership test / access (`part_name in PATH_MAPPING`,
`PATH_MAPPING[part_name]`); the keys are pairwise distinct. -/
def lookupMapping (k : List Char) : Option (List Char) :=
  (PATH_MAPPING.find? (fun p => p.1 == k)).map (·.2)

/-- Python `part.replace('.mdx', '')`: remove every (left-to-right,
non-overlapping) occurrence of the substring `.mdx`. -/
def stripMdxAll : List Char → List Char
  | '.' :: 'm' :: 'd' :: 'x' :: rest => stripMdxAll rest
  | c :: rest => c :: stripMdxAll rest
  | [] => []

/-- Python `part.endswith('.mdx')`. -/
def endsMdx (s : List Char) : Bool :=
  s.drop (s.length - 4) == ".mdx".data

/-- The per-segment body of the `get_en_path` loop. -/
def mapPart (part : List Char) : List Char :=
  let partName := stripMdxAll part
  match lookupMapping partName with
  | some en => if endsMdx part then en ++ ".mdx".data else en
  | none => part

/-- `get_en_path` on a path already decomposed into its segments (the
Python function obtains them via `Path(id_path).parts` and re-joins the
results with `Path(*en_parts)`). -/
def get_en_path (parts : List (List Char)) : List (List Char) :=
  parts.map mapPart

/-- Modelled from the claim wording of C9 ("each segment whose stem
(with the `.mdx` extension removed) is absent from the fixed lookup
table passes through"): the stem of a segment, i.e. the segment with a
final `.mdx` extension removed. -/
def stemSpec (part : List Char) : List Char :=
  if endsMdx part then part.take (part.length - 4) else part

/-- Modelled from the claim wording of C9: per-segment mapping keyed by
the stem (final-extension removal) instead of the code's
all-occurrences `replace`. -/
def mapPartSpec (part : List Char) : List Char :=
  match lookupMapping (stemSpec part) with
  | some en => if endsMdx part then en ++ ".mdx".data else en
  | none => part

/-! ### File system model and `sync_file` / `generate_report` -/

/-- The relevant part of the file system: a finite map from paths to
file contents. -/
abbrev FS := List (List Char × List Char)

/-- File existence / `read_text`. -/
def lookupFS (fs : FS) (p : List Char) : Option (List Char) :=
  (fs.find? (fun q => q.1 == p)).map (·.2)

/-- Creating or overwriting a file. -/
def writeFS (fs : FS) (p content : List Char) : FS :=
  (p, content) :: fs.filter (fun q => !(q.1 == p))

/-- `en_file.with_suffix('.mdx.bak')`.  For the `.mdx` paths `main`
passes (it globs `*.mdx`), `with_suffix` replaces the `.mdx` suffix with
`.mdx.bak`, i.e. appends `.bak`; the suffix-free fallback is modelled by
appending `.mdx.bak`. -/
def backupPath (p : List Char) : List Char :=
  if endsMdx p then p ++ ".bak".data else p ++ ".mdx.bak".data

/-- `sync_file` (sync_fix.py, lines 143-245): returns the Python return
value together with the resulting file system.  `main` only calls it
with source files found on disk, so the source read is modelled with a
default. -/
def sync_file (fs : FS) (idFile enFile : List Char) (dryRun : Bool) : Bool × FS :=
  if (lookupFS fs enFile).isNone then (false, fs)
  else
    let idContent := (lookupFS fs idFile).getD []
    let enContent := (lookupFS fs enFile).getD []
    let idBody := (extract_frontmatter idContent).2
    let enFm := (extract_frontmatter enContent).1
    let enBody := (extract_frontmatter enContent).2
    let idParsed := (splitNL idBody).map parse_line
    let enParsed := (splitNL enBody).map parse_line
    let r := syncLoop idParsed enParsed
    if r.2 then
      if dryRun then (true, fs)
      else
        let newContent := enFm ++ '\n' :: joinNL r.1
        (true, writeFS (writeFS fs (backupPath enFile) enContent) enFile newContent)
    else (false, fs)

/-- Counters of the fix-mode `main` loop. -/
structure FixStats where
  total : Nat
  updated : Nat
  skipped : Nat
  no_change : Nat
deriving DecidableEq, Repr

/-- The per-file loop of sync_fix.py `main` over (source path, mapped
target path) pairs (main computes the second component of each pair with
`get_en_path`).  The counters are accumulated over the tail first; since
they are sums this agrees with Python's in-order accumulation. -/
def runFix : FS → List (List Char × List Char) → Bool → FixStats × FS
  | fs, [], _ => (⟨0, 0, 0, 0⟩, fs)
  | fs, f :: rest, dryRun =>
    let r := sync_file fs f.1 f.2 dryRun
    let rec' := runFix r.2 rest dryRun
    let stats := rec'.1
    if r.1 then
      ({ stats with total := stats.total + 1, updated := stats.updated + 1 }, rec'.2)
    else if (lookupFS r.2 f.2).isNone then
      ({ stats with total := stats.total + 1, skipped := stats.skipped + 1 }, rec'.2)
    else
      ({ stats with total := stats.total + 1, no_change := stats.no_change + 1 }, rec'.2)

/-- The findings `generate_report` can put into its report (the `[FILE]`
header line is omitted; it carries no information about the comparison). -/
inductive Finding where
  | missing_file
  | headings_mismatch (idN enN : Nat)
  | headings_ok (n : Nat)
  | heading_level_mismatch (idx idLevel enLevel : Nat)
  | lists_mismatch (idN enN : Nat)
  | lists_ok (n : Nat)
  | indent_mismatch (count : Nat)
deriving DecidableEq, Repr

/-- Test `s['type'] == 'heading'` on an `analyze_structure` record. -/
def SRec.isHeading : SRec → Bool
  | .heading _ _ _ _ => true
  | _ => false

/-- Test `s['type'] in ['numbered_list', 'bullet_list']`. -/
def SRec.isList : SRec → Bool
  | .numbered_list _ _ _ _ _ => true
  | .bullet_list _ _ _ _ _ => true
  | _ => false

/-- The `'level'` key of a heading record (only read on headings). -/
def SRec.levelD : SRec → Nat
  | .heading _ lv _ _ => lv
  | _ => 0

/-- Python `s.get('indent', 0)`. -/
def SRec.indentD : SRec → Nat
  | .numbered_list _ ind _ _ _ => ind
  | .bullet_list _ ind _ _ _ => ind
  | _ => 0

/-- The comparison part of `generate_report` (sync_translations.py,
lines 239-285) on the two extracted bodies: the findings in report
order, and `has_issues`. -/
def bodyReport (idBody enBody : List Char) : List Finding × Bool :=
  let idStructure := analyze_structure (splitNL idBody)
  let enStructure := analyze_structure (splitNL enBody)
  let idHeadings := idStructure.filter SRec.isHeading
  let enHeadings := enStructure.filter SRec.isHeading
  let idLists := idStructure.filter SRec.isList
  let enLists := enStructure.filter SRec.isList
  let headCount : List Finding × Bool :=
    if idHeadings.length ≠ enHeadings.length then
      ([.headings_mismatch idHeadings.length enHeadings.length], true)
    else ([.headings_ok idHeadings.length], false)
  let levelWarns : List Finding :=
    (idHeadings.zip enHeadings).enum.filterMap (fun p =>
      if p.2.1.levelD ≠ p.2.2.levelD then
        some (Finding.heading_level_mismatch (p.1 + 1) p.2.1.levelD p.2.2.levelD)
      else none)
  let listCount : List Finding × Bool :=
    if idLists.length ≠ enLists.length then
      ([.lists_mismatch idLists.length enLists.length], true)
    else ([.lists_ok idLists.length], false)
  let indentMismatches :=
    ((idLists.zip enLists).filter (fun p => p.1.indentD != p.2.indentD)).length
  let indentPart : List Finding × Bool :=
    if 0 < indentMismatches then ([.indent_mismatch indentMismatches], true)
    else ([], false)
  (headCount.1 ++ levelWarns ++ listCount.1 ++ indentPart.1,
   headCount.2 || !levelWarns.isEmpty || listCount.2 || indentPart.2)

/-- `generate_report` (sync_translations.py, lines 223-285): the source
file is read first (main only passes existing source files), then a
missing target short-circuits into the `[MISSING]` report with
`has_issues = True`. -/
def generate_report (fs : FS) (idFile enFile : List Char) : List Finding × Bool :=
  if (lookupFS fs enFile).isNone then ([.missing_file], true)
  else
    let idContent := (lookupFS fs idFile).getD []
    let enContent := (lookupFS fs enFile).getD []
    bodyReport (extract_frontmatter idContent).2 (extract_frontmatter enContent).2

/-- Counters of the report-mode `main` loop (`total` is incremented per
processed file; Python initialises it to `len(id_files)` upfront, which
is the same once the loop has run over all files). -/
structure ReportStats where
  total : Nat
  matched : Nat
  missing : Nat
  mismatched : Nat
deriving DecidableEq, Repr

/-- The per-file loop of sync_translations.py `main`: collects every
file's findings (processing never stops at a missing file) and the
counters. -/
def runReport : FS → List (List Char × List Char) → ReportStats × List (List Finding)
  | _, [] => (⟨0, 0, 0, 0⟩, [])
  | fs, f :: rest =>
    let r := generate_report fs f.1 f.2
    let rec' := runReport fs rest
    let stats := rec'.1
    if (lookupFS fs f.2).isNone then
      ({ stats with total := stats.total + 1, missing := stats.missing + 1 }, r.1 :: rec'.2)
    else if r.2 then
      ({ stats with total := stats.total + 1, mismatched := stats.mismatched + 1 }, r.1 :: rec'.2)
    else
      ({ stats with total := stats.total + 1, matched := stats.matched + 1 }, r.1 :: rec'.2)

/-! ### Derived observers used to state the claims -/

/-- The `in_code_block` flag of `analyze_structure` after processing a
prefix of the body lines: toggled by every fence-delimiter line. -/
def fenceParity (pre : List (List Char)) : Bool :=
  pre.foldl (fun b l => if isFenceLine l then !b else b) false

/-- Heading levels of a `parse_line` record list, in order. -/
def levelsP (lp : List PRec) : List Nat :=
  lp.filterMap (fun r =>
    match r with
    | .heading lv _ _ => some lv
    | _ => none)

/-- Heading levels of an `analyze_structure` record list, in order. -/
def levelsS (ls : List SRec) : List Nat :=
  ls.filterMap (fun r =>
    match r with
    | .heading _ lv _ _ => some lv
    | _ => none)

/-- Positionally zip two level sequences and keep the disagreeing pairs. -/
def zipMismatch (a b : List Nat) : List (Nat × Nat) :=
  (a.zip b).filter (fun p => p.1 != p.2)

/-- The (source level, target level) pairs of the per-pair heading-level
warnings report mode emits for two bodies. -/
def headingLevelWarnings (idBody enBody : List Char) : List (Nat × Nat) :=
  (bodyReport idBody enBody).1.filterMap (fun f =>
    match f with
    | .heading_level_mismatch _ a b => some (a, b)
    | _ => none)

/-! ## Supporting lemmas -/

theorem analyzeLine_content (inCode : Bool) (i : Nat) (l : List Char) :
    (analyzeLine inCode i l).1.content = l := by
  unfold analyzeLine
  repeat' split
  all_goals rfl

theorem parse_line_original (l : List Char) : (parse_line l).original = l := by
  unfold parse_line
  split
  · rfl
  · split
    · rfl
    · split <;> rfl

theorem analyzeFrom_map_content :
    ∀ (lines : List (List Char)) (inCode : Bool) (i : Nat),
      (analyzeFrom inCode i lines).map SRec.content = lines := by
  intro lines
  induction lines with
  | nil => intro inCode i; rfl
  | cons l ls ih =>
    intro inCode i
    simp [analyzeFrom, analyzeLine_content, ih]

theorem syncLoop_length : ∀ (enP idP : List PRec), (syncLoop idP enP).1.length = enP.length := by
  intro enP
  induction enP with
  | nil => intro idP; cases idP <;> simp [syncLoop]
  | cons e es ih =>
    intro idP
    cases idP with
    | nil => simp [syncLoop]
    | cons i is =>
      simp only [syncLoop]
      split
      · simp [ih]
      · simp [ih]

theorem fixLine_of_agree (i e : PRec) (hm : isMatchedPair i e = true)
    (ha : agree i e = true) : fixLine i e = (e.original, false) := by
  cases i <;> cases e <;> simp_all [isMatchedPair, agree, fixLine, PRec.original]

theorem syncLoop_of_agree :
    ∀ (enP idP : List PRec),
      (∀ p ∈ matchedPairs idP enP, agree p.1 p.2 = true) →
      syncLoop idP enP = (enP.map PRec.original, false) := by
  intro enP
  induction enP with
  | nil => intro idP _; cases idP <;> simp [syncLoop]
  | cons e es ih =>
    intro idP hag
    cases idP with
    | nil => simp [syncLoop]
    | cons i is =>
      by_cases hm : isMatchedPair i e = true
      · have hpair := hag (i, e) (by simp [matchedPairs, hm])
        have hrest : ∀ p ∈ matchedPairs is es, agree p.1 p.2 = true := by
          intro p hp
          exact hag p (by simp [matchedPairs, hm, hp])
        simp [syncLoop, hm, fixLine_of_agree i e hm hpair, ih is hrest]
      · have hrest : ∀ p ∈ matchedPairs (if i.ty = e.ty then is else i :: is) es,
            agree p.1 p.2 = true := by
          intro p hp
          apply hag
          simpa [matchedPairs, hm] using hp
        simp [syncLoop, hm, ih _ hrest]

/-! ## Claim theorems -/

/-- C1: both structural parsers are total and length-preserving: for any
body of `N` lines, `analyze_structure` returns exactly `N` records whose
`content` fields are the input lines in order, and mapping `parse_line`
over the lines returns exactly `N` records whose `original` fields are
the input lines in order. -/
theorem C1_parsers_total_length_preserving (lines : List (List Char)) :
    (analyze_structure lines).map SRec.content = lines ∧
    (analyze_structure lines).length = lines.length ∧
    (lines.map parse_line).map PRec.original = lines ∧
    (lines.map parse_line).length = lines.length := by
  refine ⟨analyzeFrom_map_content lines false 0, ?_, ?_, by simp⟩
  · simpa using congrArg List.length (analyzeFrom_map_content lines false 0)
  · simp [List.map_map, Function.comp_def, parse_line_original]

/-- C10: fix mode never inserts or deletes lines: the body produced by
the alignment loop has exactly as many lines as the target body has
records, for every pair of parsed bodies. -/
theorem C10_fixer_preserves_line_count (idP enP : List PRec) :
    (syncLoop idP enP).1.length = enP.length :=
  syncLoop_length enP idP

/-- C3: whenever the current source and target records are not a matched
comparable pair (types differ, or the shared type is not heading /
numbered list / bullet list), the loop copies the target record's
original line through unchanged and advances the target cursor alone,
additionally advancing the source cursor exactly when the two records
have the same (non-comparable) type. -/
theorem C3_unmatched_step (i e : PRec) (is es : List PRec)
    (h : ¬ (i.ty = e.ty ∧
            (i.ty = PTy.heading ∨ i.ty = PTy.numbered_list ∨ i.ty = PTy.bullet_list))) :
    (syncLoop (i :: is) (e :: es)).1
        = e.original :: (syncLoop (if i.ty = e.ty then is else i :: is) es).1 ∧
    (syncLoop (i :: is) (e :: es)).2
        = (syncLoop (if i.ty = e.ty then is else i :: is) es).2 := by
  have hm : isMatchedPair i e = false := by
    cases i <;> cases e <;> simp_all [isMatchedPair, PRec.ty]
  simp [syncLoop, hm]

/-- C3 witness: a plain-text source record against a heading target
record is not a matched comparable pair; the step copies the target
line and does not advance the source cursor. -/
theorem C3_unmatched_step_witness :
    (¬ ((PRec.other "x".data).ty = (PRec.heading 1 "y".data "# y".data).ty ∧
        ((PRec.other "x".data).ty = PTy.heading ∨
         (PRec.other "x".data).ty = PTy.numbered_list ∨
         (PRec.other "x".data).ty = PTy.bullet_list))) ∧
    (syncLoop [PRec.other "x".data] [PRec.heading 1 "y".data "# y".data]).1
        = "# y".data ::
          (syncLoop (if (PRec.other "x".data).ty = (PRec.heading 1 "y".data "# y".data).ty
                     then [] else [PRec.other "x".data]) []).1 ∧
    (syncLoop [PRec.other "x".data] [PRec.heading 1 "y".data "# y".data]).2
        = (syncLoop (if (PRec.other "x".data).ty = (PRec.heading 1 "y".data "# y".data).ty
                     then [] else [PRec.other "x".data]) []).2 := by
  refine ⟨by decide, ?_⟩
  exact C3_unmatched_step (PRec.other "x".data) (PRec.heading 1 "y".data "# y".data) [] []
    (by decide)

/-- C5: fix mode is idempotent on aligned inputs: when every matched
pair of the dual-cursor traversal agrees on heading level / list indent,
the loop reproduces the target lines unchanged with `changes_made =
false`, and `sync_file` returns the no-change result without touching
the file system (no backup, no write), in dry-run and apply mode alike. -/
theorem C5_fix_idempotent_on_aligned (fs : FS) (idF enF : List Char) (dryRun : Bool)
    (idC enC : List Char)
    (hen : lookupFS fs enF = some enC)
    (hid : lookupFS fs idF = some idC)
    (hal : ∀ p ∈ matchedPairs ((splitNL (extract_frontmatter idC).2).map parse_line)
                              ((splitNL (extract_frontmatter enC).2).map parse_line),
             agree p.1 p.2 = true) :
    sync_file fs idF enF dryRun = (false, fs) ∧
    syncLoop ((splitNL (extract_frontmatter idC).2).map parse_line)
             ((splitNL (extract_frontmatter enC).2).map parse_line)
      = (((splitNL (extract_frontmatter enC).2).map parse_line).map PRec.original, false) := by
  have hloop := syncLoop_of_agree _ _ hal
  refine ⟨?_, hloop⟩
  unfold sync_file
  rw [hen, hid]
  simp [hloop]

/-- C5 witness: an aligned source/target pair (equal heading level,
equal list indent) is left untouched by `sync_file`. -/
theorem C5_fix_idempotent_on_aligned_witness :
    (lookupFS [("id/a.mdx".data, "# T\n1. a".data), ("en/a.mdx".data, "# S\n1. b".data)]
        "en/a.mdx".data = some "# S\n1. b".data) ∧
    (∀ p ∈ matchedPairs
        ((splitNL (extract_frontmatter "# T\n1. a".data).2).map parse_line)
        ((splitNL (extract_frontmatter "# S\n1. b".data).2).map parse_line),
        agree p.1 p.2 = true) ∧
    sync_file [("id/a.mdx".data, "# T\n1. a".data), ("en/a.mdx".data, "# S\n1. b".data)]
        "id/a.mdx".data "en/a.mdx".data false = (false,
          [("id/a.mdx".data, "# T\n1. a".data), ("en/a.mdx".data, "# S\n1. b".data)]) := by
  refine ⟨by decide, by decide, ?_⟩
  exact (C5_fix_idempotent_on_aligned
    [("id/a.mdx".data, "# T\n1. a".data), ("en/a.mdx".data, "# S\n1. b".data)]
    "id/a.mdx".data "en/a.mdx".data false
    "# T\n1. a".data "# S\n1. b".data
    (by decide) (by decide) (by decide)).1

theorem analyzeLine_state (inCode : Bool) (i : Nat) (l : List Char) :
    (analyzeLine inCode i l).2 = if isFenceLine l then !inCode else inCode := by
  unfold analyzeLine
  repeat' split
  all_goals simp_all

theorem analyzeFrom_inside :
    ∀ (pre : List (List Char)) (inC : Bool) (i : Nat) (l : List Char) (suf : List (List Char)),
      pre.foldl (fun b ln => if isFenceLine ln then !b else b) inC = true →
      isFenceLine l = false →
      (analyzeFrom inC i (pre ++ l :: suf))[pre.length]?
        = some (SRec.code_block_content (i + pre.length) l) := by
  intro pre
  induction pre with
  | nil =>
    intro inC i l suf hpar hl
    simp only [List.foldl_nil] at hpar
    subst hpar
    simp [analyzeFrom, analyzeLine, hl]
  | cons p ps ih =>
    intro inC i l suf hpar hl
    simp only [List.cons_append, analyzeFrom, List.length_cons, List.getElem?_cons_succ]
    have hpar' : ps.foldl (fun b ln => if isFenceLine ln then !b else b)
        ((analyzeLine inC i p).2) = true := by
      rw [analyzeLine_state]
      simpa using hpar
    have := ih (analyzeLine inC i p).2 (i + 1) l suf hpar' hl
    simp only [List.append_eq]
    rw [this]
    congr 2
    omega

/-- C2 (amended): code-fence opacity holds for the report-mode parser
`analyze_structure`: any non-fence line at a position where the
`in_code_block` flag is set (i.e. after an odd number of fence-delimiter
lines) is classified as `code_block_content`, never as heading or list.
The fix-mode parser `parse_line` performs no fence tracking at all, so
the property does not extend to it (see the counterexample). -/
theorem C2_amended_report_fence_opacity (pre : List (List Char)) (l : List Char)
    (suf : List (List Char)) (hin : fenceParity pre = true) (hl : isFenceLine l = false) :
    (analyze_structure (pre ++ l :: suf))[pre.length]?
      = some (SRec.code_block_content pre.length l) := by
  simpa [analyze_structure] using analyzeFrom_inside pre false 0 l suf hin hl

/-- C2 witness: the heading-shaped line `# x` between two fence lines is
classified as fence content by `analyze_structure`. -/
theorem C2_amended_report_fence_opacity_witness :
    fenceParity ["```".data] = true ∧
    isFenceLine "# x".data = false ∧
    (analyze_structure (["```".data] ++ "# x".data :: ["```".data]))[(["```".data] : List (List Char)).length]?
      = some (SRec.code_block_content ["```".data].length "# x".data) := by
  refine ⟨by decide, by decide, ?_⟩
  exact C2_amended_report_fence_opacity ["```".data] "# x".data ["```".data]
    (by decide) (by decide)

/-- C2 counterexample: the claim asserts fence opacity for the parser of
both modes, but the fix-mode parser `parse_line` classifies the
heading-shaped line `# x` between two fence markers as a heading, while
`analyze_structure` classifies the same line of the same body as fence
content. -/
theorem C2_counterexample :
    ((["```".data, "# x".data, "```".data].map parse_line))[1]?
      = some (PRec.heading 1 "x".data "# x".data) ∧
    (analyze_structure ["```".data, "# x".data, "```".data])[1]?
      = some (SRec.code_block_content 1 "# x".data) := by
  decide

/-- C6 counterexample: on a document whose first line is an opening
front-matter delimiter with no closing delimiter, `extract_frontmatter`
does not return an empty body: it returns every line after the first as
the body (here `foo`), while also including them in the front-matter
block. -/
theorem C6_counterexample :
    extract_frontmatter "---\nfoo".data = ("---\nfoo".data, "foo".data) ∧
    ("foo".data : List Char) ≠ [] := by
  decide

/-- C6 (amended): with an opening delimiter and no closing delimiter,
`extract_frontmatter` treats everything from the first line onward as
the front-matter block, but the body is not empty: `body_start` keeps
its initial value `1`, so the body consists of all lines after the first
(duplicating the front-matter content); it is empty only when nothing
follows the opening delimiter line. -/
theorem C6_amended_unclosed_frontmatter (content l0 : List Char) (rest : List (List Char))
    (hsplit : splitNL content = l0 :: rest)
    (hopen : pyStrip l0 = fmDelim)
    (hnoclose : fmScan rest = none) :
    extract_frontmatter content = (joinNL (fmDelim :: rest), joinNL rest) := by
  unfold extract_frontmatter
  rw [hsplit]
  simp [hopen, hnoclose]

/-- C6 witness: for the document `---\nfoo` the front matter is the
whole document and the body is `foo`, not the empty string. -/
theorem C6_amended_unclosed_frontmatter_witness :
    splitNL "---\nfoo".data = ["---".data, "foo".data] ∧
    pyStrip "---".data = fmDelim ∧
    fmScan ["foo".data] = none ∧
    extract_frontmatter "---\nfoo".data
      = (joinNL (fmDelim :: ["foo".data]), joinNL ["foo".data]) := by
  refine ⟨by decide, by decide, by decide, ?_⟩
  exact C6_amended_unclosed_frontmatter "---\nfoo".data "---".data ["foo".data]
    (by decide) (by decide) (by decide)

/-- C8: when the mapped target file does not exist, `sync_file` returns
the skip result without touching the file system, `generate_report`
returns the `[MISSING]` report with `has_issues = True`, and the main
loops of both modes count the file (skipped resp. missing) and continue
with the remaining files unchanged. -/
theorem C8_missing_target (fs : FS) (idF enF : List Char)
    (rest : List (List Char × List Char)) (dryRun : Bool)
    (h : lookupFS fs enF = none) :
    sync_file fs idF enF dryRun = (false, fs) ∧
    generate_report fs idF enF = ([Finding.missing_file], true) ∧
    runFix fs ((idF, enF) :: rest) dryRun
      = ({ (runFix fs rest dryRun).1 with
            total := (runFix fs rest dryRun).1.total + 1,
            skipped := (runFix fs rest dryRun).1.skipped + 1 },
         (runFix fs rest dryRun).2) ∧
    runReport fs ((idF, enF) :: rest)
      = ({ (runReport fs rest).1 with
            total := (runReport fs rest).1.total + 1,
            missing := (runReport fs rest).1.missing + 1 },
         [Finding.missing_file] :: (runReport fs rest).2) := by
  have hsync : sync_file fs idF enF dryRun = (false, fs) := by
    unfold sync_file
    simp [h]
  have hrep : generate_report fs idF enF = ([Finding.missing_file], true) := by
    unfold generate_report
    simp [h]
  refine ⟨hsync, hrep, ?_, ?_⟩
  · simp [runFix, hsync, h]
  · simp [runReport, hrep, h]

/-- C8 witness: a run over one source file whose mapped target is absent
counts it (skipped resp. missing), writes nothing, and reports it. -/
theorem C8_missing_target_witness :
    lookupFS [("id/a.mdx".data, "# X".data)] "en/a.mdx".data = none ∧
    sync_file [("id/a.mdx".data, "# X".data)] "id/a.mdx".data "en/a.mdx".data false
      = (false, [("id/a.mdx".data, "# X".data)]) ∧
    generate_report [("id/a.mdx".data, "# X".data)] "id/a.mdx".data "en/a.mdx".data
      = ([Finding.missing_file], true) := by
  refine ⟨by decide, ?_, ?_⟩
  · exact (C8_missing_target [("id/a.mdx".data, "# X".data)] "id/a.mdx".data
      "en/a.mdx".data [] false (by decide)).1
  · exact (C8_missing_target [("id/a.mdx".data, "# X".data)] "id/a.mdx".data
      "en/a.mdx".data [] false (by decide)).2.1

theorem stripMdxAll_length_le : ∀ s : List Char, (stripMdxAll s).length ≤ s.length := by
  intro s
  induction s using stripMdxAll.induct <;> simp_all [stripMdxAll]
  omega

theorem stripMdxAll_cons_of_ne (c : Char) (rest : List Char)
    (hne : ∀ r1, c = '.' → rest = 'm' :: 'd' :: 'x' :: r1 → False) :
    stripMdxAll (c :: rest) = c :: stripMdxAll rest := by
  rw [stripMdxAll.eq_def]
  split
  · rename_i r1 heq
    injection heq with h1 h2
    exact (hne r1 h1 h2).elim
  · rename_i c2 rest2 hne2 heq
    injection heq with h1 h2
    subst h1
    subst h2
    rfl
  · rename_i heq
    exact absurd heq (by simp)

theorem no_mdx_boundary (c : Char) (rest : List Char)
    (hne : ∀ r1, c = '.' → rest = 'm' :: 'd' :: 'x' :: r1 → False) :
    ∀ r1, c = '.' → rest ++ ".mdx".data = 'm' :: 'd' :: 'x' :: r1 → False := by
  intro r1 hc happ
  have hmdx : ".mdx".data = ['.', 'm', 'd', 'x'] := rfl
  rw [hmdx] at happ
  rcases rest with _ | ⟨a, _ | ⟨b, _ | ⟨d, t⟩⟩⟩
  · simp at happ
  · simp at happ
  · simp at happ
  · simp at happ
    obtain ⟨ha, hb, hd, -⟩ := happ
    subst ha
    subst hb
    subst hd
    exact hne t hc rfl

theorem stripMdxAll_fixpoint_append :
    ∀ s : List Char, stripMdxAll s = s → stripMdxAll (s ++ ".mdx".data) = s := by
  intro s
  induction s using stripMdxAll.induct with
  | case1 rest ih =>
    intro hfix
    exfalso
    have h1 : stripMdxAll ('.' :: 'm' :: 'd' :: 'x' :: rest) = stripMdxAll rest := by
      rw [stripMdxAll]
    have h2 := stripMdxAll_length_le rest
    rw [h1] at hfix
    have := congrArg List.length hfix
    simp at this
    omega
  | case2 c rest hne ih =>
    intro hfix
    rw [stripMdxAll_cons_of_ne c rest hne] at hfix
    have hrest : stripMdxAll rest = rest := by
      injection hfix
    have : stripMdxAll ((c :: rest) ++ ".mdx".data)
        = c :: stripMdxAll (rest ++ ".mdx".data) := by
      rw [List.cons_append]
      exact stripMdxAll_cons_of_ne c (rest ++ ".mdx".data) (no_mdx_boundary c rest hne)
    rw [this, ih hrest]
  | case3 =>
    intro _
    decide

theorem endsMdx_decomp (s : List Char) (h : endsMdx s = true) :
    s = s.take (s.length - 4) ++ ".mdx".data := by
  unfold endsMdx at h
  rw [beq_iff_eq] at h
  conv_lhs => rw [← List.take_append_drop (s.length - 4) s]
  rw [h]

theorem mapPart_eq_spec (part : List Char)
    (h : stripMdxAll (stemSpec part) = stemSpec part) :
    mapPart part = mapPartSpec part := by
  by_cases he : endsMdx part = true
  · have hstem : stemSpec part = part.take (part.length - 4) := by simp [stemSpec, he]
    rw [hstem] at h
    have hstrip : stripMdxAll part = part.take (part.length - 4) := by
      conv_lhs => rw [endsMdx_decomp part he]
      exact stripMdxAll_fixpoint_append _ h
    simp [mapPart, mapPartSpec, hstem, hstrip]
  · have hstem : stemSpec part = part := by simp [stemSpec, he]
    rw [hstem] at h
    simp [mapPart, mapPartSpec, hstem, h]

/-- C9 (amended): `get_en_path` maps each segment independently, keyed
by the segment with every occurrence of the substring `.mdx` removed
(Python `replace('.mdx', '')`), not by stem (final-extension removal):
for every segment whose stem contains no internal `.mdx` occurrence —
in particular every ordinary file or folder name — this coincides with
the claim's stem-based description: unmapped segments pass through
unchanged, and mapped segments are replaced by their table entry with
`.mdx` restored exactly when the original segment ended with it. -/
theorem C9_amended_get_en_path (parts : List (List Char))
    (h : ∀ part ∈ parts, stripMdxAll (stemSpec part) = stemSpec part) :
    get_en_path parts = parts.map mapPartSpec := by
  unfold get_en_path
  induction parts with
  | nil => rfl
  | cons p ps ih =>
    simp only [List.map_cons]
    rw [mapPart_eq_spec p (h p (by simp)), ih (fun q hq => h q (by simp [hq]))]

/-- C9 witness: a mapped folder name, a mapped `.mdx` file name and an
unmapped name are translated exactly as the stem-based description
says. -/
theorem C9_amended_get_en_path_witness :
    (∀ part ∈ [ "ujian".data, "tugas.mdx".data, "unknown.mdx".data ],
        stripMdxAll (stemSpec part) = stemSpec part) ∧
    get_en_path [ "ujian".data, "tugas.mdx".data, "unknown.mdx".data ]
      = [ "ujian".data, "tugas.mdx".data, "unknown.mdx".data ].map mapPartSpec ∧
    get_en_path [ "ujian".data, "tugas.mdx".data, "unknown.mdx".data ]
      = [ "exams".data, "assignments.mdx".data, "unknown.mdx".data ] := by
  refine ⟨by decide, ?_, by decide⟩
  exact C9_amended_get_en_path [ "ujian".data, "tugas.mdx".data, "unknown.mdx".data ]
    (by decide)

/-- C9 counterexample: the segment `login.mdx.mdx` has stem `login.mdx`,
which is absent from the lookup table, so by the claim it must pass
through unchanged; but the code keys the lookup on `replace('.mdx','')`
= `login`, which is in the table, and maps the segment to `login.mdx`. -/
theorem C9_counterexample :
    lookupMapping (stemSpec "login.mdx.mdx".data) = none ∧
    mapPartSpec "login.mdx.mdx".data = "login.mdx.mdx".data ∧
    get_en_path [ "login.mdx.mdx".data ] = [ "login.mdx".data ] ∧
    "login.mdx".data ≠ "login.mdx.mdx".data := by
  decide

theorem dropLen_takeWhile_head (p : Char → Bool) :
    ∀ (s : List Char) (c : Char) (t' : List Char),
      s.drop (s.takeWhile p).length = c :: t' → p c = false := by
  intro s
  induction s with
  | nil => intro c t' h; simp at h
  | cons a s' ih =>
    intro c t' h
    by_cases hpa : p a = true
    · rw [List.takeWhile_cons_of_pos hpa] at h
      simp only [List.length_cons, List.drop_succ_cons] at h
      exact ih c t' h
    · rw [List.takeWhile_cons_of_neg hpa] at h
      simp only [List.length_nil, List.drop_zero, List.cons.injEq] at h
      obtain ⟨h1, -⟩ := h
      subst h1
      simpa using hpa

theorem takeWhile_append_stop (p : Char → Bool) (l1 : List Char) (c : Char) (l2 : List Char)
    (h1 : ∀ a ∈ l1, p a = true) (hc : p c = false) :
    (l1 ++ c :: l2).takeWhile p = l1 := by
  induction l1 with
  | nil =>
    rw [List.nil_append]
    exact List.takeWhile_cons_of_neg (by simp [hc])
  | cons a l1' ih =>
    rw [List.cons_append, List.takeWhile_cons_of_pos (h1 a (by simp)),
      ih (fun a ha => h1 a (by simp [ha]))]

theorem bullet_not_space (b : Char) (hb : b ∈ bulletChars) : isPySpace b = false := by
  simp only [bulletChars, List.mem_cons, List.not_mem_nil, or_false] at hb
  rcases hb with h | h | h <;> subst h <;> decide

theorem bullet_not_digit (b : Char) (hb : b ∈ bulletChars) : Char.isDigit b = false := by
  simp only [bulletChars, List.mem_cons, List.not_mem_nil, or_false] at hb
  rcases hb with h | h | h <;> subst h <;> decide

theorem bullet_ne_hash (b : Char) (hb : b ∈ bulletChars) : (b == '#') = false := by
  simp only [bulletChars, List.mem_cons, List.not_mem_nil, or_false] at hb
  rcases hb with h | h | h <;> subst h <;> decide

theorem replicate_space_all (n : Nat) : ∀ a ∈ List.replicate n ' ', isPySpace a = true := by
  intro a ha
  simp [List.eq_of_mem_replicate ha, isPySpace]

theorem mspt_roundtrip (s t : List Char) (h : matchSpacePlusText s = some t) :
    matchSpacePlusText (' ' :: t) = some t := by
  unfold matchSpacePlusText at h
  by_cases h0 : (s.takeWhile isPySpace).length = 0
  · simp [h0] at h
  · rw [if_neg h0] at h
    by_cases h1 : (s.takeWhile isPySpace).length < s.length
    · rw [if_pos h1] at h
      have ht := Option.some.inj h
      have hlen : t.length = s.length - (s.takeWhile isPySpace).length := by
        rw [← ht]
        exact List.length_drop _ _
      have hpos : 0 < t.length := by omega
      obtain ⟨c, t', hct⟩ : ∃ c t', t = c :: t' := by
        cases t with
        | nil => simp at hpos
        | cons c t' => exact ⟨c, t', rfl⟩
      have hc : isPySpace c = false := by
        apply dropLen_takeWhile_head isPySpace s c t'
        rw [ht, hct]
      subst hct
      unfold matchSpacePlusText
      have htw : ((' ' :: c :: t').takeWhile isPySpace) = [' '] := by
        rw [List.takeWhile_cons_of_pos (by decide), List.takeWhile_cons_of_neg (by simp [hc])]
      rw [htw]
      simp
    · rw [if_neg h1] at h
      by_cases h2 : 2 ≤ (s.takeWhile isPySpace).length
      · rw [if_pos h2] at h
        have ht := Option.some.inj h
        have hwle : (s.takeWhile isPySpace).length ≤ s.length :=
          (List.takeWhile_prefix isPySpace).length_le
        have hw : (s.takeWhile isPySpace).length = s.length := by omega
        have hall : ∀ c ∈ s, isPySpace c = true := by
          rw [← List.takeWhile_eq_self_iff (p := isPySpace)]
          exact (List.takeWhile_prefix isPySpace).eq_of_length hw
        have hlen : t.length = 1 := by
          rw [← ht, List.length_drop]
          omega
        obtain ⟨c, hc⟩ := List.length_eq_one.mp hlen
        have hcs : c ∈ s := by
          apply List.mem_of_mem_drop (n := (s.takeWhile isPySpace).length - 1)
          rw [ht, hc]
          simp
        have hcp := hall c hcs
        subst hc
        unfold matchSpacePlusText
        have htw : ((' ' :: [c]).takeWhile isPySpace) = [' ', c] := by
          rw [List.takeWhile_cons_of_pos (by decide), List.takeWhile_cons_of_pos hcp]
          rfl
        rw [htw]
        simp
      · rw [if_neg h2] at h
        exact absurd h (by simp)

theorem isPySpace_of_isDigit (c : Char) (h : Char.isDigit c = true) : isPySpace c = false := by
  by_contra hcon
  simp only [Bool.not_eq_false] at hcon
  unfold isPySpace at hcon
  simp only [Bool.or_eq_true, beq_iff_eq] at hcon
  rcases hcon with ((((h1 | h1) | h1) | h1) | h1) | h1 <;> subst h1 <;> simp at h

theorem isDigit_ne_hash (c : Char) (h : Char.isDigit c = true) : (c == '#') = false := by
  by_contra hcon
  simp only [Bool.not_eq_false, beq_iff_eq] at hcon
  subst hcon
  simp at h

/-! Inversion lemmas: facts the matchers guarantee about their output
fields. -/

theorem matchHeading_facts (l : List Char) (lv : Nat) (t : List Char)
    (h : matchHeading l = some (lv, t)) :
    1 ≤ lv ∧ lv ≤ 6 ∧ matchSpacePlusText (' ' :: t) = some t := by
  simp only [matchHeading] at h
  split at h
  · rename_i hcond
    rw [Option.map_eq_some'] at h
    obtain ⟨t0, hm, heq⟩ := h
    injection heq with he1 he2
    subst he1
    subst he2
    exact ⟨hcond.1, hcond.2, mspt_roundtrip _ _ hm⟩
  · simp at h

theorem matchNumbered_facts (l : List Char) (ind : Nat) (num t : List Char)
    (h : matchNumbered l = some (ind, num, t)) :
    num ≠ [] ∧ (∀ c ∈ num, Char.isDigit c = true) ∧
      matchSpacePlusText (' ' :: t) = some t := by
  simp only [matchNumbered] at h
  split at h
  · simp at h
  · rename_i hne
    split at h
    · rename_i rest hdot
      rw [Option.map_eq_some'] at h
      obtain ⟨t0, hm, heq⟩ := h
      injection heq with he1 he2
      injection he2 with he2 he3
      subst he1
      subst he2
      subst he3
      refine ⟨?_, ?_, mspt_roundtrip _ _ hm⟩
      · intro hcon
        rw [← List.isEmpty_iff] at hcon
        exact hne hcon
      · intro c hcmem
        exact List.mem_takeWhile_imp hcmem
    · simp at h

theorem matchBullet_facts (l : List Char) (ind : Nat) (b : Char) (t : List Char)
    (h : matchBullet l = some (ind, b, t)) :
    b ∈ bulletChars ∧ matchSpacePlusText (' ' :: t) = some t := by
  simp only [matchBullet] at h
  split at h
  · rename_i b0 rest heq
    split at h
    · rename_i hmem
      rw [Option.map_eq_some'] at h
      obtain ⟨t0, hm, heq2⟩ := h
      injection heq2 with he1 he2
      injection he2 with he2 he3
      subst he1
      subst he2
      subst he3
      exact ⟨hmem, mspt_roundtrip _ _ hm⟩
    · simp at h
  · simp at h

/-! Forward lemmas: parsing the synthesized replacement lines. -/

theorem matchHeading_mk (lv : Nat) (t : List Char) (h1 : 1 ≤ lv) (h6 : lv ≤ 6)
    (hv : matchSpacePlusText (' ' :: t) = some t) :
    matchHeading (mkHeadingLine lv t) = some (lv, t) := by
  have htw : ((List.replicate lv '#' ++ ' ' :: t).takeWhile (· == '#'))
      = List.replicate lv '#' := by
    apply takeWhile_append_stop
    · intro a ha
      simp [List.eq_of_mem_replicate ha]
    · decide
  have hdrop : (List.replicate lv '#' ++ ' ' :: t).drop lv = ' ' :: t := by
    have h0 := List.drop_left (List.replicate lv '#') (' ' :: t)
    rwa [List.length_replicate] at h0
  simp only [matchHeading, mkHeadingLine]
  rw [htw, List.length_replicate, if_pos ⟨h1, h6⟩, hdrop, hv]
  rfl

theorem matchHeading_none_of_head (c : Char) (t' : List Char)
    (hc : (c == '#') = false) : matchHeading (c :: t') = none := by
  simp only [matchHeading]
  rw [List.takeWhile_cons_of_neg (by simp_all)]
  simp

theorem matchNumbered_mk (ii : Nat) (num t : List Char) (hne : num ≠ [])
    (hd : ∀ c ∈ num, Char.isDigit c = true)
    (hv : matchSpacePlusText (' ' :: t) = some t) :
    matchNumbered (mkNumberedLine ii num t) = some (ii, num, t) := by
  obtain ⟨d, num', hnum⟩ : ∃ d num', num = d :: num' := by
    cases num with
    | nil => exact absurd rfl hne
    | cons d num' => exact ⟨d, num', rfl⟩
  have htw : ((List.replicate ii ' ' ++ (num ++ '.' :: ' ' :: t)).takeWhile isPySpace)
      = List.replicate ii ' ' := by
    rw [hnum, List.cons_append]
    exact takeWhile_append_stop _ _ _ _ (replicate_space_all ii)
      (isPySpace_of_isDigit d (hd d (by simp [hnum])))
  have hdrop : (List.replicate ii ' ' ++ (num ++ '.' :: ' ' :: t)).drop ii
      = num ++ '.' :: ' ' :: t := by
    have h0 := List.drop_left (List.replicate ii ' ') (num ++ '.' :: ' ' :: t)
    rwa [List.length_replicate] at h0
  have htwd : ((num ++ '.' :: ' ' :: t).takeWhile Char.isDigit) = num :=
    takeWhile_append_stop _ _ _ _ hd (by decide)
  have hdrop2 : (num ++ '.' :: ' ' :: t).drop num.length = '.' :: ' ' :: t :=
    List.drop_left _ _
  simp only [matchNumbered, mkNumberedLine, mkIndent]
  rw [htw, List.length_replicate, hdrop, htwd,
    if_neg (by simp [List.isEmpty_iff, hne]), hdrop2]
  simp [hv]

theorem matchNumbered_none_mkBullet (ii : Nat) (b : Char) (t : List Char)
    (hb : b ∈ bulletChars) :
    matchNumbered (mkBulletLine ii b t) = none := by
  have htw : ((List.replicate ii ' ' ++ b :: ' ' :: t).takeWhile isPySpace)
      = List.replicate ii ' ' :=
    takeWhile_append_stop _ _ _ _ (replicate_space_all ii) (bullet_not_space b hb)
  have hdrop : (List.replicate ii ' ' ++ b :: ' ' :: t).drop ii = b :: ' ' :: t := by
    have h0 := List.drop_left (List.replicate ii ' ') (b :: ' ' :: t)
    rwa [List.length_replicate] at h0
  simp only [matchNumbered, mkBulletLine, mkIndent]
  rw [htw, List.length_replicate, hdrop,
    List.takeWhile_cons_of_neg (by simp [bullet_not_digit b hb])]
  simp

theorem matchBullet_mk (ii : Nat) (b : Char) (t : List Char) (hb : b ∈ bulletChars)
    (hv : matchSpacePlusText (' ' :: t) = some t) :
    matchBullet (mkBulletLine ii b t) = some (ii, b, t) := by
  have htw : ((List.replicate ii ' ' ++ b :: ' ' :: t).takeWhile isPySpace)
      = List.replicate ii ' ' :=
    takeWhile_append_stop _ _ _ _ (replicate_space_all ii) (bullet_not_space b hb)
  have hdrop : (List.replicate ii ' ' ++ b :: ' ' :: t).drop ii = b :: ' ' :: t := by
    have h0 := List.drop_left (List.replicate ii ' ') (b :: ' ' :: t)
    rwa [List.length_replicate] at h0
  simp only [matchBullet, mkBulletLine, mkIndent]
  rw [htw, List.length_replicate, hdrop]
  simp [hb, hv]

/-! Parse-level inversion and round trips. -/

theorem parse_line_heading_inv (l : List Char) (lv : Nat) (t : List Char)
    (h : parse_line l = PRec.heading lv t l) : matchHeading l = some (lv, t) := by
  unfold parse_line at h
  cases hm : matchHeading l with
  | some p =>
    rw [hm] at h
    obtain ⟨a, b⟩ := p
    injection h with h1 h2
    subst h1
    subst h2
    rfl
  | none =>
    rw [hm] at h
    cases hn : matchNumbered l with
    | some p =>
      rw [hn] at h
      obtain ⟨a, b, c⟩ := p
      simp at h
    | none =>
      rw [hn] at h
      cases hbm : matchBullet l with
      | some p =>
        rw [hbm] at h
        obtain ⟨a, b, c⟩ := p
        simp at h
      | none =>
        rw [hbm] at h
        simp at h

theorem parse_line_numbered_inv (l : List Char) (ind : Nat) (num t : List Char)
    (h : parse_line l = PRec.numbered_list ind num t l) :
    matchNumbered l = some (ind, num, t) := by
  unfold parse_line at h
  cases hm : matchHeading l with
  | some p =>
    rw [hm] at h
    obtain ⟨a, b⟩ := p
    simp at h
  | none =>
    rw [hm] at h
    cases hn : matchNumbered l with
    | some p =>
      rw [hn] at h
      obtain ⟨a, b, c⟩ := p
      injection h with h1 h2 h3
      subst h1
      subst h2
      subst h3
      rfl
    | none =>
      rw [hn] at h
      cases hbm : matchBullet l with
      | some p =>
        rw [hbm] at h
        obtain ⟨a, b, c⟩ := p
        simp at h
      | none =>
        rw [hbm] at h
        simp at h

theorem parse_line_bullet_inv (l : List Char) (ind : Nat) (b : Char) (t : List Char)
    (h : parse_line l = PRec.bullet_list ind b t l) :
    matchBullet l = some (ind, b, t) := by
  unfold parse_line at h
  cases hm : matchHeading l with
  | some p =>
    rw [hm] at h
    obtain ⟨a, b0⟩ := p
    simp at h
  | none =>
    rw [hm] at h
    cases hn : matchNumbered l with
    | some p =>
      rw [hn] at h
      obtain ⟨a, b0, c⟩ := p
      simp at h
    | none =>
      rw [hn] at h
      cases hbm : matchBullet l with
      | some p =>
        rw [hbm] at h
        obtain ⟨a, b0, c⟩ := p
        injection h with h1 h2 h3
        subst h1
        subst h2
        subst h3
        rfl
      | none =>
        rw [hbm] at h
        simp at h

theorem parse_line_mkHeading (lv : Nat) (t : List Char) (h1 : 1 ≤ lv) (h6 : lv ≤ 6)
    (hv : matchSpacePlusText (' ' :: t) = some t) :
    parse_line (mkHeadingLine lv t) = PRec.heading lv t (mkHeadingLine lv t) := by
  unfold parse_line
  rw [matchHeading_mk lv t h1 h6 hv]

theorem parse_line_mkNumbered (ii : Nat) (num t : List Char) (hne : num ≠ [])
    (hd : ∀ c ∈ num, Char.isDigit c = true)
    (hv : matchSpacePlusText (' ' :: t) = some t) :
    parse_line (mkNumberedLine ii num t)
      = PRec.numbered_list ii num t (mkNumberedLine ii num t) := by
  obtain ⟨d, num', hnum⟩ : ∃ d num', num = d :: num' := by
    cases num with
    | nil => exact absurd rfl hne
    | cons d num' => exact ⟨d, num', rfl⟩
  have hhd : matchHeading (mkNumberedLine ii num t) = none := by
    cases ii with
    | zero =>
      have : mkNumberedLine 0 num t = d :: (num' ++ '.' :: ' ' :: t) := by
        simp [mkNumberedLine, mkIndent, hnum]
      rw [this]
      exact matchHeading_none_of_head d _ (isDigit_ne_hash d (hd d (by simp [hnum])))
    | succ n =>
      have : mkNumberedLine (n + 1) num t
          = ' ' :: (List.replicate n ' ' ++ (num ++ '.' :: ' ' :: t)) := by
        simp [mkNumberedLine, mkIndent, List.replicate_succ]
      rw [this]
      exact matchHeading_none_of_head ' ' _ (by decide)
  unfold parse_line
  rw [hhd, matchNumbered_mk ii num t hne hd hv]

theorem parse_line_mkBullet (ii : Nat) (b : Char) (t : List Char) (hb : b ∈ bulletChars)
    (hv : matchSpacePlusText (' ' :: t) = some t) :
    parse_line (mkBulletLine ii b t)
      = PRec.bullet_list ii b t (mkBulletLine ii b t) := by
  have hbh : (b == '#') = false := bullet_ne_hash b hb
  have hhd : matchHeading (mkBulletLine ii b t) = none := by
    cases ii with
    | zero =>
      have : mkBulletLine 0 b t = b :: ' ' :: t := by
        simp [mkBulletLine, mkIndent]
      rw [this]
      exact matchHeading_none_of_head b _ hbh
    | succ n =>
      have : mkBulletLine (n + 1) b t
          = ' ' :: (List.replicate n ' ' ++ b :: ' ' :: t) := by
        simp [mkBulletLine, mkIndent, List.replicate_succ]
      rw [this]
      exact matchHeading_none_of_head ' ' _ (by decide)
  unfold parse_line
  rw [hhd, matchNumbered_none_mkBullet ii b t hb, matchBullet_mk ii b t hb hv]

/-- C4 (amended): for every matched structural pair with differing
level/indent, the replacement line the fixer emits is built from the
source's heading level or indent together with the target's own text and
the target's own number token or bullet glyph, with the marker-to-text
separator normalized to a single space; re-parsing the replacement line
recovers exactly the source's level/indent and the target's unaltered
text, number and bullet.  (The claim's stronger reading — that nothing
besides level/indent changes — fails when the target's separator is not
a single space; see the counterexample.) -/
theorem C4_amended_fixer_preserves_tokens :
    (∀ (ls l : List Char) (il : Nat) (it : List Char) (el : Nat) (et : List Char),
       parse_line ls = PRec.heading il it ls →
       parse_line l = PRec.heading el et l →
       il ≠ el →
       fixLine (PRec.heading il it ls) (PRec.heading el et l) = (mkHeadingLine il et, true) ∧
       parse_line (mkHeadingLine il et) = PRec.heading il et (mkHeadingLine il et)) ∧
    (∀ (ls l : List Char) (ii : Nat) (inum itx : List Char)
       (ei : Nat) (enum etx : List Char),
       parse_line ls = PRec.numbered_list ii inum itx ls →
       parse_line l = PRec.numbered_list ei enum etx l →
       ii ≠ ei →
       fixLine (PRec.numbered_list ii inum itx ls) (PRec.numbered_list ei enum etx l)
         = (mkNumberedLine ii enum etx, true) ∧
       parse_line (mkNumberedLine ii enum etx)
         = PRec.numbered_list ii enum etx (mkNumberedLine ii enum etx)) ∧
    (∀ (ls l : List Char) (ii : Nat) (ib : Char) (itx : List Char)
       (ei : Nat) (eb : Char) (etx : List Char),
       parse_line ls = PRec.bullet_list ii ib itx ls →
       parse_line l = PRec.bullet_list ei eb etx l →
       ii ≠ ei →
       fixLine (PRec.bullet_list ii ib itx ls) (PRec.bullet_list ei eb etx l)
         = (mkBulletLine ii eb etx, true) ∧
       parse_line (mkBulletLine ii eb etx)
         = PRec.bullet_list ii eb etx (mkBulletLine ii eb etx)) := by
  refine ⟨?_, ?_, ?_⟩
  · intro ls l il it el et hs ht hne
    obtain ⟨hb1, hb6, -⟩ := matchHeading_facts ls il it (parse_line_heading_inv ls il it hs)
    obtain ⟨-, -, hv⟩ := matchHeading_facts l el et (parse_line_heading_inv l el et ht)
    exact ⟨by simp [fixLine, hne], parse_line_mkHeading il et hb1 hb6 hv⟩
  · intro ls l ii inum itx ei enum etx hs ht hne
    obtain ⟨hn1, hn2, hv⟩ :=
      matchNumbered_facts l ei enum etx (parse_line_numbered_inv l ei enum etx ht)
    exact ⟨by simp [fixLine, hne], parse_line_mkNumbered ii enum etx hn1 hn2 hv⟩
  · intro ls l ii ib itx ei eb etx hs ht hne
    obtain ⟨hb, hv⟩ :=
      matchBullet_facts l ei eb etx (parse_line_bullet_inv l ei eb etx ht)
    exact ⟨by simp [fixLine, hne], parse_line_mkBullet ii eb etx hb hv⟩

/-- C4 witness: a matched heading pair and a matched numbered pair with
differing level/indent; the fixer's replacement lines re-parse to the
target's text and number with the source's level/indent. -/
theorem C4_amended_fixer_preserves_tokens_witness :
    (parse_line "## Judul".data = PRec.heading 2 "Judul".data "## Judul".data ∧
     parse_line "# Title".data = PRec.heading 1 "Title".data "# Title".data ∧
     (2 : Nat) ≠ 1 ∧
     fixLine (PRec.heading 2 "Judul".data "## Judul".data)
         (PRec.heading 1 "Title".data "# Title".data)
       = (mkHeadingLine 2 "Title".data, true) ∧
     parse_line (mkHeadingLine 2 "Title".data)
       = PRec.heading 2 "Title".data (mkHeadingLine 2 "Title".data)) ∧
    (parse_line "  1. Langkah".data
       = PRec.numbered_list 2 "1".data "Langkah".data "  1. Langkah".data ∧
     parse_line "1. Step".data
       = PRec.numbered_list 0 "1".data "Step".data "1. Step".data ∧
     (2 : Nat) ≠ 0 ∧
     fixLine (PRec.numbered_list 2 "1".data "Langkah".data "  1. Langkah".data)
         (PRec.numbered_list 0 "1".data "Step".data "1. Step".data)
       = (mkNumberedLine 2 "1".data "Step".data, true) ∧
     parse_line (mkNumberedLine 2 "1".data "Step".data)
       = PRec.numbered_list 2 "1".data "Step".data (mkNumberedLine 2 "1".data "Step".data)) := by
  constructor
  · refine ⟨by decide, by decide, by decide, ?_, ?_⟩
    · exact (C4_amended_fixer_preserves_tokens.1 "## Judul".data "# Title".data
        2 "Judul".data 1 "Title".data (by decide) (by decide) (by decide)).1
    · exact (C4_amended_fixer_preserves_tokens.1 "## Judul".data "# Title".data
        2 "Judul".data 1 "Title".data (by decide) (by decide) (by decide)).2
  · refine ⟨by decide, by decide, by decide, ?_, ?_⟩
    · exact (C4_amended_fixer_preserves_tokens.2.1 "  1. Langkah".data "1. Step".data
        2 "1".data "Langkah".data 0 "1".data "Step".data
        (by decide) (by decide) (by decide)).1
    · exact (C4_amended_fixer_preserves_tokens.2.1 "  1. Langkah".data "1. Step".data
        2 "1".data "Langkah".data 0 "1".data "Step".data
        (by decide) (by decide) (by decide)).2

/-- C4 counterexample: the claim says the fixer alters only the heading
level, but for target `##  B` (two spaces after the marker) and source
`# B` the emitted line is `# B`, not the line obtained from the target
by changing only its hash run (which would be `#  B`): the separator is
normalized too. -/
theorem C4_counterexample :
    (syncLoop [parse_line "# B".data] [parse_line "##  B".data]).1 = ["# B".data] ∧
    (syncLoop [parse_line "# B".data] [parse_line "##  B".data]).2 = true ∧
    (syncLoop [parse_line "# B".data] [parse_line "##  B".data]).1
      ≠ [List.replicate 1 '#' ++ ("##  B".data.drop 2)] := by
  decide

/-! ## Lemmas relating the report-mode warnings to the fix-mode traversal -/

theorem levelOfS_analyzeLine (i : Nat) (l : List Char) (hf : isFenceLine l = false) :
    (match (analyzeLine false i l).1 with
      | SRec.heading _ lv _ _ => some lv
      | _ => none)
      = (matchHeading l).map Prod.fst := by
  cases hm : matchHeading l with
  | some p =>
    obtain ⟨lv, t⟩ := p
    simp [analyzeLine, hf, hm]
  | none =>
    simp only [analyzeLine, hf, hm, Bool.false_eq_true, if_false]
    cases hn : matchNumbered l with
    | some p =>
      obtain ⟨a, b, c⟩ := p
      simp
    | none =>
      cases hb : matchBullet l with
      | some p =>
        obtain ⟨a, b, c⟩ := p
        simp
      | none =>
        by_cases hi : isImportLine l = true
        · simp [hi]
        · by_cases hh : isHrLine l = true
          · simp [hi, hh]
          · simp [hi, hh]

theorem analyzeLine_state_false (i : Nat) (l : List Char) (hf : isFenceLine l = false) :
    (analyzeLine false i l).2 = false := by
  rw [analyzeLine_state, hf]
  rfl

theorem levelsS_analyzeFrom (lines : List (List Char)) :
    ∀ i, (∀ l ∈ lines, isFenceLine l = false) →
      levelsS (analyzeFrom false i lines)
        = lines.filterMap (fun l => (matchHeading l).map Prod.fst) := by
  induction lines with
  | nil => intro i _; rfl
  | cons l ls ih =>
    intro i hf
    have hfl : isFenceLine l = false := hf l (by simp)
    simp only [analyzeFrom, analyzeLine_state_false i l hfl]
    unfold levelsS
    rw [List.filterMap_cons, List.filterMap_cons]
    rw [levelOfS_analyzeLine i l hfl]
    have ihh := ih (i + 1) (fun q hq => hf q (by simp [hq]))
    unfold levelsS at ihh
    rw [ihh]

theorem levelOfP_parse_line (l : List Char) :
    (match parse_line l with
      | PRec.heading lv _ _ => some lv
      | _ => none)
      = (matchHeading l).map Prod.fst := by
  cases hm : matchHeading l with
  | some p =>
    obtain ⟨lv, t⟩ := p
    simp [parse_line, hm]
  | none =>
    simp only [parse_line, hm]
    cases hn : matchNumbered l with
    | some p =>
      obtain ⟨a, b, c⟩ := p
      simp
    | none =>
      cases hb : matchBullet l with
      | some p =>
        obtain ⟨a, b, c⟩ := p
        simp
      | none => rfl

theorem levelsP_map_parse (lines : List (List Char)) :
    levelsP (lines.map parse_line)
      = lines.filterMap (fun l => (matchHeading l).map Prod.fst) := by
  induction lines with
  | nil => rfl
  | cons l ls ih =>
    unfold levelsP
    rw [List.map_cons, List.filterMap_cons, List.filterMap_cons, levelOfP_parse_line l]
    unfold levelsP at ih
    rw [ih]

theorem fixHeadingMismatches_of_ty_eq :
    ∀ (idP enP : List PRec), idP.map PRec.ty = enP.map PRec.ty →
      fixHeadingMismatches idP enP = zipMismatch (levelsP idP) (levelsP enP) := by
  intro idP
  induction idP with
  | nil =>
    intro enP h
    have : enP = [] := by
      cases enP with
      | nil => rfl
      | cons e es => simp at h
    subst this
    rfl
  | cons i is ih =>
    intro enP h
    cases enP with
    | nil => simp at h
    | cons e es =>
      simp only [List.map_cons, List.cons.injEq] at h
      obtain ⟨hty, hrest⟩ := h
      cases i with
      | heading il it io =>
        cases e with
        | heading el et eo =>
          have hmp : matchedPairs (PRec.heading il it io :: is) (PRec.heading el et eo :: es)
              = (PRec.heading il it io, PRec.heading el et eo) :: matchedPairs is es := by
            simp [matchedPairs, isMatchedPair]
          unfold fixHeadingMismatches at *
          rw [hmp, List.filterMap_cons]
          by_cases hil : il = el
          · subst hil
            simp only [ne_eq, not_true_eq_false, if_false]
            rw [ih es hrest]
            simp [levelsP, List.filterMap_cons, zipMismatch]
          · simp only [ne_eq, hil, not_false_eq_true, if_true]
            rw [ih es hrest]
            simp [levelsP, List.filterMap_cons, zipMismatch, hil]
        | numbered_list _ _ _ _ => simp [PRec.ty] at hty
        | bullet_list _ _ _ _ => simp [PRec.ty] at hty
        | other _ => simp [PRec.ty] at hty
      | numbered_list ii inum itx io =>
        cases e with
        | heading _ _ _ => simp [PRec.ty] at hty
        | numbered_list ei enum etx eo =>
          have hmp : matchedPairs (PRec.numbered_list ii inum itx io :: is)
              (PRec.numbered_list ei enum etx eo :: es)
              = (PRec.numbered_list ii inum itx io, PRec.numbered_list ei enum etx eo)
                :: matchedPairs is es := by
            simp [matchedPairs, isMatchedPair]
          unfold fixHeadingMismatches at *
          rw [hmp, List.filterMap_cons]
          rw [ih es hrest]
          simp [levelsP, List.filterMap_cons]
        | bullet_list _ _ _ _ => simp [PRec.ty] at hty
        | other _ => simp [PRec.ty] at hty
      | bullet_list ii ib itx io =>
        cases e with
        | heading _ _ _ => simp [PRec.ty] at hty
        | numbered_list _ _ _ _ => simp [PRec.ty] at hty
        | bullet_list ei eb etx eo =>
          have hmp : matchedPairs (PRec.bullet_list ii ib itx io :: is)
              (PRec.bullet_list ei eb etx eo :: es)
              = (PRec.bullet_list ii ib itx io, PRec.bullet_list ei eb etx eo)
                :: matchedPairs is es := by
            simp [matchedPairs, isMatchedPair]
          unfold fixHeadingMismatches at *
          rw [hmp, List.filterMap_cons]
          rw [ih es hrest]
          simp [levelsP, List.filterMap_cons]
        | other _ => simp [PRec.ty] at hty
      | other io =>
        cases e with
        | heading _ _ _ => simp [PRec.ty] at hty
        | numbered_list _ _ _ _ => simp [PRec.ty] at hty
        | bullet_list _ _ _ _ => simp [PRec.ty] at hty
        | other eo =>
          have hmp : matchedPairs (PRec.other io :: is) (PRec.other eo :: es)
              = matchedPairs is es := by
            simp [matchedPairs, isMatchedPair, PRec.ty]
          unfold fixHeadingMismatches at *
          rw [hmp]
          rw [ih es hrest]
          simp [levelsP, List.filterMap_cons]

theorem warns_projFrom (n : Nat) (L : List (SRec × SRec)) :
    (List.enumFrom n L).filterMap (fun x =>
        (if x.2.1.levelD ≠ x.2.2.levelD then
            some (Finding.heading_level_mismatch (x.1 + 1) x.2.1.levelD x.2.2.levelD)
          else none).bind (fun f =>
            match f with
            | Finding.heading_level_mismatch _ a b => some (a, b)
            | _ => none))
      = L.filterMap (fun q =>
          if q.1.levelD ≠ q.2.levelD then some (q.1.levelD, q.2.levelD) else none) := by
  induction L generalizing n with
  | nil => rfl
  | cons q L ih =>
    simp only [List.enumFrom, List.filterMap_cons]
    by_cases h : q.1.levelD = q.2.levelD
    · simp only [h, ne_eq, not_true_eq_false, if_false, Option.none_bind]
      exact ih (n + 1)
    · simp only [ne_eq, h, not_false_eq_true, if_true, Option.some_bind]
      rw [ih (n + 1)]

theorem warns_proj_enum (L : List (SRec × SRec)) :
    (List.enum L).filterMap (fun x =>
        (if x.2.1.levelD ≠ x.2.2.levelD then
            some (Finding.heading_level_mismatch (x.1 + 1) x.2.1.levelD x.2.2.levelD)
          else none).bind (fun f =>
            match f with
            | Finding.heading_level_mismatch _ a b => some (a, b)
            | _ => none))
      = L.filterMap (fun q =>
          if q.1.levelD ≠ q.2.levelD then some (q.1.levelD, q.2.levelD) else none) :=
  warns_projFrom 0 L

theorem zip_levels_filterMap (A B : List SRec) :
    ((A.zip B).filterMap (fun q =>
        if q.1.levelD ≠ q.2.levelD then some (q.1.levelD, q.2.levelD) else none))
      = zipMismatch (A.map SRec.levelD) (B.map SRec.levelD) := by
  induction A generalizing B with
  | nil => simp [zipMismatch]
  | cons a A ih =>
    cases B with
    | nil => simp [zipMismatch]
    | cons b B =>
      simp only [List.zip_cons_cons, List.filterMap_cons, List.map_cons]
      by_cases h : a.levelD = b.levelD
      · simp only [h, ne_eq, not_true_eq_false, if_false]
        rw [ih B]
        simp [zipMismatch, h]
      · simp only [ne_eq, h, not_false_eq_true, if_true]
        rw [ih B]
        simp [zipMismatch, h]

theorem filter_isHeading_map_levelD (ls : List SRec) :
    (ls.filter SRec.isHeading).map SRec.levelD = levelsS ls := by
  induction ls with
  | nil => rfl
  | cons r rest ih =>
    cases r <;> simp_all [SRec.isHeading, SRec.levelD, levelsS, List.filterMap_cons]

theorem headingLevelWarnings_eq (idB enB : List Char) :
    headingLevelWarnings idB enB
      = zipMismatch (levelsS (analyze_structure (splitNL idB)))
          (levelsS (analyze_structure (splitNL enB))) := by
  unfold headingLevelWarnings bodyReport
  simp only [List.filterMap_append]
  have hside1 : ∀ (n m : Nat),
      ((if n ≠ m then ([Finding.headings_mismatch n m], true)
        else ([Finding.headings_ok n], false)).1.filterMap (fun f =>
          match f with
          | Finding.heading_level_mismatch _ a b => some (a, b)
          | _ => none)) = [] := by
    intro n m
    split <;> rfl
  have hside2 : ∀ (n m : Nat),
      ((if n ≠ m then ([Finding.lists_mismatch n m], true)
        else ([Finding.lists_ok n], false)).1.filterMap (fun f =>
          match f with
          | Finding.heading_level_mismatch _ a b => some (a, b)
          | _ => none)) = [] := by
    intro n m
    split <;> rfl
  have hside3 : ∀ (n : Nat),
      ((if 0 < n then ([Finding.indent_mismatch n], true)
        else ([], false)).1.filterMap (fun f =>
          match f with
          | Finding.heading_level_mismatch _ a b => some (a, b)
          | _ => none)) = [] := by
    intro n
    split <;> rfl
  rw [hside1, hside2, hside3]
  simp only [List.append_nil, List.nil_append]
  simp only [List.filterMap_filterMap]
  rw [warns_proj_enum]
  rw [zip_levels_filterMap, filter_isHeading_map_levelD, filter_isHeading_map_levelD]

/-- C7 (amended): the per-pair heading-level warnings of report mode
coincide with the matched differing heading pairs of the fix-mode
dual-cursor traversal whenever the two bodies are fence-free and their
per-line `parse_line` type sequences are pointwise equal (so the two
cursors advance in lockstep).  Without these conditions the two modes
can pair headings differently (see the counterexample). -/
theorem C7_amended_report_matches_fix_on_aligned_kinds (idB enB : List Char)
    (hf1 : ∀ l ∈ splitNL idB, isFenceLine l = false)
    (hf2 : ∀ l ∈ splitNL enB, isFenceLine l = false)
    (hty : ((splitNL idB).map parse_line).map PRec.ty
        = ((splitNL enB).map parse_line).map PRec.ty) :
    headingLevelWarnings idB enB
      = fixHeadingMismatches ((splitNL idB).map parse_line)
          ((splitNL enB).map parse_line) := by
  rw [headingLevelWarnings_eq]
  rw [fixHeadingMismatches_of_ty_eq _ _ hty]
  unfold analyze_structure
  rw [levelsS_analyzeFrom (splitNL idB) 0 hf1, levelsS_analyzeFrom (splitNL enB) 0 hf2]
  rw [levelsP_map_parse, levelsP_map_parse]

/-- C7 witness: on fence-free bodies with identical per-line type
sequences, report mode emits exactly the level-mismatch pairs the
fix-mode traversal identifies. -/
theorem C7_amended_report_matches_fix_on_aligned_kinds_witness :
    (∀ l ∈ splitNL "# a\ntext".data, isFenceLine l = false) ∧
    (∀ l ∈ splitNL "## b\nteks".data, isFenceLine l = false) ∧
    ((splitNL "# a\ntext".data).map parse_line).map PRec.ty
      = ((splitNL "## b\nteks".data).map parse_line).map PRec.ty ∧
    headingLevelWarnings "# a\ntext".data "## b\nteks".data
      = fixHeadingMismatches ((splitNL "# a\ntext".data).map parse_line)
          ((splitNL "## b\nteks".data).map parse_line) ∧
    headingLevelWarnings "# a\ntext".data "## b\nteks".data = [(1, 2)] := by
  refine ⟨by decide, by decide, by decide, ?_, by decide⟩
  exact C7_amended_report_matches_fix_on_aligned_kinds "# a\ntext".data "## b\nteks".data
    (by decide) (by decide) (by decide)

/-- C7 counterexample: for source body `* a` „ `# h` and target body
`## h` „ `* b`, report mode pairs the two headings positionally and
emits one level warning (1 vs 2), while the fix-mode dual-cursor
traversal never matches any heading pair at all: the warnings do not
correspond to the traversal's matched heading pairs. -/
theorem C7_counterexample :
    headingLevelWarnings "* a\n# h".data "## h\n* b".data = [(1, 2)] ∧
    fixHeadingMismatches ((splitNL "* a\n# h".data).map parse_line)
        ((splitNL "## h\n* b".data).map parse_line) = [] := by
  decide

end Sync
